import Mathlib

/-!
Verification of the quiz-bot question store, dialog finalization steps,
user statistics store, quiz-round reconciliation and the URL adapter
that imports external quizzes, shallowly embedded from `simple_bot.py`.

Conventions of the embedding:
* The JSON question file is a value of type `FileContent`; every store
  operation that re-reads the file is a pure function of the loaded list.
* Python dicts keyed by strings become association lists with first-match
  lookup and in-place first-match update, matching CPython dict semantics
  for the single-key operations the bot performs.
* Indices and counters are `Nat`: every index the handlers store comes from
  an `enumerate` over the option buttons, hence non-negative.
* Fallible steps (`try`/`except`) become `Except Unit` values; an outer
  `except` that swallows the error and falls through or returns `None`
  is an explicit `match` on that value.
-/

namespace QuizBot

/-- A stored quiz question, mirroring the JSON records written by
`save_questions` (`id`, `question`, `options`, `answer`, `category`). -/
structure Question where
  id : Nat
  question : String
  options : List String
  answer : Nat
  category : String
deriving Repr, DecidableEq

/-- The two sample questions seeded by `load_questions` when the questions
file does not exist. -/
def seedQuestions : List Question :=
  [ { id := 1
    , question := "What is the capital of France?"
    , options := ["Berlin", "Madrid", "Paris", "Rome"]
    , answer := 2
    , category := "Geography" }
  , { id := 2
    , question := "Which planet is known as the Red Planet?"
    , options := ["Venus", "Mars", "Jupiter", "Saturn"]
    , answer := 1
    , category := "Science" } ]

/-- State of the questions JSON file: absent, present but unreadable or
unparsable, or parsed to a list of records. -/
inductive FileContent where
  | missing : FileContent
  | malformed : FileContent
  | valid : List Question → FileContent
deriving Repr, DecidableEq

/-- `load_questions`: returns the parsed list; seeds the samples when the
file is missing; returns `[]` when reading or parsing raises (the
`except` clause). -/
def load_questions : FileContent → List Question
  | .missing => seedQuestions
  | .malformed => []
  | .valid qs => qs

/-- File state after `load_questions` runs (the missing-file branch calls
`save_questions` on the samples; the failure branch writes nothing). -/
def load_questions_file : FileContent → FileContent
  | .missing => .valid seedQuestions
  | .malformed => .malformed
  | .valid qs => .valid qs

/-- `save_questions`: overwrites the whole file with the given list. -/
def save_questions (qs : List Question) : FileContent :=
  .valid qs

/-- Accumulator form of Python `max(q.get("id", 0) for q in questions)`. -/
def maxId (qs : List Question) : Nat :=
  qs.foldl (fun a q => Nat.max a q.id) 0

/-- `get_next_question_id`: 1 on an empty store, otherwise the maximum
stored id plus one, recomputed from the given (re-loaded) contents. -/
def get_next_question_id (qs : List Question) : Nat :=
  if qs.isEmpty then 1 else maxId qs + 1

/-- `get_question_by_id`: first record whose `id` matches, else `None`. -/
def get_question_by_id (qs : List Question) (questionId : Nat) : Option Question :=
  qs.find? (fun q => q.id == questionId)

/-- `delete_question_by_id`: filters out every record with the id; reports
whether the collection shrank, and the collection that is then saved
(unchanged, and not rewritten, when nothing matched). -/
def delete_question_by_id (qs : List Question) (questionId : Nat) : Bool × List Question :=
  if (qs.filter (fun q => !(q.id == questionId))).length < qs.length
  then (true, qs.filter (fun q => !(q.id == questionId)))
  else (false, qs)

/-- Python `str.split(c)` for a one-character separator, over the
character list: splits at every occurrence, keeping empty pieces. -/
def pySplitOnChar (c : Char) : List Char → List (List Char)
  | [] => [[]]
  | x :: xs =>
      match pySplitOnChar c xs with
      | [] => [[]]
      | r :: rs => if x == c then [] :: r :: rs else (x :: r) :: rs

/-- Python `str.strip()` over the character list: drop whitespace from
both ends. -/
def pyStripChars (l : List Char) : List Char :=
  ((l.dropWhile Char.isWhitespace).reverse.dropWhile Char.isWhitespace).reverse

/-- The lines of a message, each stripped: `text.split('\n')` followed by
`.strip()` on each piece. -/
def strippedLines (text : String) : List String :=
  (pySplitOnChar '\n' text.data).map (fun cs => String.mk (pyStripChars cs))

/-- The option-splitting rule shared by `get_options` and
`handle_edit_options`:
`[opt.strip() for opt in text.split('\n') if opt.strip()]`. -/
def splitOptions (text : String) : List String :=
  (strippedLines text).filter (fun opt => !(opt == ""))

/-- Update the first list element satisfying `p` (the `for ... break`
pattern used by every edit handler). -/
def updateFirst (p : Question → Bool) (f : Question → Question) : List Question → List Question
  | [] => []
  | q :: rest => if p q then f q :: rest else q :: updateFirst p f rest

/-- Finalization step of `get_answer` (create and clone flows): append a
new record with the next free id and category `"User Created"`. -/
def get_answer (qs : List Question) (questionText : String) (options : List String)
    (answerIdx : Nat) : List Question :=
  qs ++ [ { id := get_next_question_id qs
          , question := questionText
          , options := options
          , answer := answerIdx
          , category := "User Created" } ]

/-- Finalization step of `handle_poll_to_quiz`: append a new record built
from a forwarded poll with category `"Converted Poll"`. -/
def handle_poll_to_quiz (qs : List Question) (questionText : String)
    (options : List String) (optionId : Nat) : List Question :=
  qs ++ [ { id := get_next_question_id qs
          , question := questionText
          , options := options
          , answer := optionId
          , category := "Converted Poll" } ]

/-- `handle_edit_options`: split the message into options; fewer than two
re-prompts (store untouched); an unknown id ends the conversation (store
untouched); otherwise the first matching record gets the new options and
its answer is reset to 0 exactly when the old answer index is out of
range for the new list. -/
def handle_edit_options (qs : List Question) (questionId : Nat) (text : String) :
    List Question :=
  if (splitOptions text).length < 2 then qs
  else
    match get_question_by_id qs questionId with
    | none => qs
    | some _ =>
        updateFirst (fun q => q.id == questionId)
          (fun q =>
            { q with
              options := splitOptions text
              answer := if (splitOptions text).length ≤ q.answer then 0 else q.answer })
          qs

/-- `handle_edit_answer`: overwrite the `answer` of the first record with
the given id (the handler performs no bounds check of its own; the index
comes from a button enumerating that record's options). -/
def handle_edit_answer (qs : List Question) (questionId : Nat) (newAnswer : Nat) :
    List Question :=
  updateFirst (fun q => q.id == questionId) (fun q => { q with answer := newAnswer }) qs

/-- The stored-record invariant of the spec: the answer indexes into the
options and there are at least two options. -/
def questionOk (q : Question) : Prop :=
  q.answer < q.options.length ∧ 2 ≤ q.options.length

/-- Every stored record satisfies `questionOk`. -/
def storeInvariant (qs : List Question) : Prop :=
  ∀ q ∈ qs, questionOk q

instance (q : Question) : Decidable (questionOk q) := by
  unfold questionOk; infer_instance

instance (qs : List Question) : Decidable (storeInvariant qs) := by
  unfold storeInvariant; infer_instance

/-! ### User statistics store and quiz-round reconciliation -/

/-- A per-user statistics record, as kept in the users JSON object. -/
structure UserStats where
  name : String
  correct : Nat
  total : Nat
deriving Repr, DecidableEq

/-- First-match lookup in a string-keyed association list, modelling a
Python dict read. -/
def lookupAssoc {α : Type} (l : List (String × α)) (k : String) : Option α :=
  (l.find? (fun p => p.1 == k)).map (fun p => p.2)

/-- In-place first-match overwrite, appending when the key is absent,
modelling a Python dict write. -/
def setAssoc {α : Type} : List (String × α) → String → α → List (String × α)
  | [], k, v => [(k, v)]
  | p :: rest, k, v => if p.1 == k then (k, v) :: rest else p :: setAssoc rest k v

/-- The users store: user-id string to statistics record. -/
abbrev UserStore : Type := List (String × UserStats)

/-- `update_user_stats`: create the row `{name, correct: 0, total: 0}`
when the user id is absent (the name is written only here), then
increment `total`, and `correct` exactly when `is_correct`. -/
def update_user_stats (users : UserStore) (userId : String) (userName : String)
    (isCorrect : Bool) : UserStore :=
  let base :=
    match lookupAssoc users userId with
    | some st => st
    | none => { name := userName, correct := 0, total := 0 }
  setAssoc users userId
    { base with
      total := base.total + 1
      correct := base.correct + (if isCorrect then 1 else 0) }

/-- `total` of a user's row, 0 when the row is absent. -/
def totalOf (users : UserStore) (userId : String) : Nat :=
  match lookupAssoc users userId with
  | some st => st.total
  | none => 0

/-- `correct` of a user's row, 0 when the row is absent. -/
def correctOf (users : UserStore) (userId : String) : Nat :=
  match lookupAssoc users userId with
  | some st => st.correct
  | none => 0

/-- Every stored row has `correct ≤ total`. -/
def statsInvariant (users : UserStore) : Prop :=
  ∀ p ∈ users, (Prod.snd p).correct ≤ (Prod.snd p).total

/-- `handle_poll_answer`, at an event carrying a responder and a chosen
option index: `is_correct = (selected_option == correct_option)` against
the remembered index, then `update_user_stats`. -/
def handle_poll_answer (users : UserStore) (userId : String) (userName : String)
    (selectedOption : Nat) (correctOption : Nat) : UserStore :=
  update_user_stats users userId userName (selectedOption == correctOption)

/-- The in-flight round bookkeeping of `play`: `context.user_data` is keyed
by USER id in the framework, so the remembered correct index lives in a
per-user map; the chat the poll was dispatched to is not recorded. -/
abbrev RoundStore : Type := List (String × Nat)

/-- `play`: remember `question_data["answer"]` as
`user_data["quiz_correct_answer"]` for the invoking user. The chat id of
the dispatched poll is accepted but, like the source, never stored. -/
def play (rounds : RoundStore) (chatId : Nat) (userId : String)
    (correctOptionId : Nat) : RoundStore :=
  let _ := chatId
  setAssoc rounds userId correctOptionId

/-- The remembered correct index `handle_poll_answer` reads for a
responder (`context.user_data.get("quiz_correct_answer")`). -/
def rememberedCorrect (rounds : RoundStore) (userId : String) : Option Nat :=
  lookupAssoc rounds userId

/-- The correctness check of `handle_poll_answer` for a responder whose
event carries a chosen option index:
`is_correct = (selected_option == correct_option)`, where the remembered
value is `None` when no round was stored for that user (and an `int`
never equals `None`). -/
def reconcile_is_correct (rounds : RoundStore) (userId : String)
    (selectedOption : Nat) : Bool :=
  match rememberedCorrect rounds userId with
  | some corr => selectedOption == corr
  | none => false

/-! ### Import adapter: `parse_telegram_quiz_url` -/

/-- A draft extracted from a URL: the dict
`{question, options, answer}` the adapter returns on success. -/
structure QuizDraft where
  question : String
  options : List String
  answer : Nat
deriving Repr, DecidableEq

/-- `pat` occurs as a substring of `s`. -/
def containsStr (s pat : String) : Bool :=
  2 ≤ (s.splitOn pat).length

/-- Outcomes of the fallible external steps of `parse_telegram_quiz_url`.
Each `Except Unit _` is one `try` block: `.error` is a raised exception
(caught by the matching `except`), `.ok` the value it produced.
Extraction sub-steps whose own parsing logic lives behind a library call
(Pyrogram fetch, embedded-view scrape, meta-tag scrape) yield an optional
`(question, options)` pair. -/
structure ParseEnv where
  hasCreds : Bool
  channelMatch : Bool
  pyro : Except Unit (Option (String × List String))
  fetchPage : Except Unit Unit
  pollParse : Option (String × List String)
  embedded : Except Unit (Option (String × List String))
  metaTags : Except Unit (Option (String × List String))

/-- Method 1 of `parse_telegram_quiz_url`: the Pyrogram fetch, attempted
only when credentials are configured and the URL matched the channel
pattern; its `try` swallows any exception (yields nothing). -/
def pyroStage (env : ParseEnv) : Option QuizDraft :=
  if env.hasCreds && env.channelMatch then
    match env.pyro with
    | .error _ => none
    | .ok none => none
    | .ok (some (q, opts)) => some { question := q, options := opts, answer := 0 }
  else none

/-- First part of method 2: the direct poll-widget regex scrape of the
fetched page, accepted only with at least two scraped options. -/
def pollStage (env : ParseEnv) : Option QuizDraft :=
  match env.pollParse with
  | some (q, opts) =>
      if 2 ≤ opts.length then some { question := q, options := opts, answer := 0 }
      else none
  | none => none

/-- Second part of method 2: the embedded-view scrape, attempted only
when the URL looks quiz-like and matched the channel pattern; its `try`
swallows any exception. -/
def embeddedStage (env : ParseEnv) (url : String) : Option QuizDraft :=
  if (containsStr url "rajsthangk" || containsStr url.toLower "gk" ||
      containsStr url.toLower "quiz") && env.channelMatch then
    match env.embedded with
    | .error _ => none
    | .ok none => none
    | .ok (some (q, opts)) => some { question := q, options := opts, answer := 0 }
  else none

/-- Method 3: the meta-tag scrape of the fetched page, accepted only when
the title looks quiz-like and at least two options were split out; its
`try` swallows any exception. -/
def metaStage (env : ParseEnv) : Option QuizDraft :=
  match env.metaTags with
  | .error _ => none
  | .ok none => none
  | .ok (some (title, opts)) =>
      if containsStr title.toLower "quiz" && 2 ≤ opts.length then
        some { question := title, options := opts, answer := 0 }
      else none

/-- `parse_telegram_quiz_url`: validate the URL, then try in order the
Pyrogram fetch (method 1), the direct poll-widget scrape and the
embedded-view scrape (method 2), and the meta-tag scrape (method 3); an
exception of the page fetch is caught and control falls to the final
`return None`; every successful return carries `answer = 0`. -/
def parse_telegram_quiz_url (env : ParseEnv) (url : String) : Option QuizDraft :=
  if url == "" || !(containsStr url "t.me") then none
  else
    match pyroStage env with
    | some d => some d
    | none =>
        match env.fetchPage with
        | .error _ => none
        | .ok _ =>
            match pollStage env with
            | some d => some d
            | none =>
                match embeddedStage env url with
                | some d => some d
                | none => metaStage env

/-- The whole-handler commit of `get_answer` at the file level: re-load
the store, append the new record, save. -/
def create_commit (fc : FileContent) (questionText : String) (options : List String)
    (answerIdx : Nat) : FileContent :=
  save_questions (get_answer (load_questions fc) questionText options answerIdx)

/-- A concrete store record with id 1 (for the scenarios of §8). -/
def sampleQ1 : Question :=
  { id := 1, question := "q one", options := ["a", "b"], answer := 0, category := "General" }

/-- A concrete store record with id 2. -/
def sampleQ2 : Question :=
  { id := 2, question := "q two", options := ["a", "b", "c"], answer := 1, category := "General" }

/-- A concrete store record with id 5 (ids 3 and 4 are a gap). -/
def sampleQ5 : Question :=
  { id := 5, question := "q five", options := ["a", "b"], answer := 1, category := "General" }

/-- A store holding records with ids {1, 2, 5}. -/
def sampleStore125 : List Question := [sampleQ1, sampleQ2, sampleQ5]

/-! ### Shared lemmas about the embedded stores -/

theorem lookupAssoc_setAssoc_self {α : Type} (l : List (String × α)) (k : String) (v : α) :
    lookupAssoc (setAssoc l k v) k = some v := by
  induction l with
  | nil => simp [setAssoc, lookupAssoc]
  | cons p rest ih =>
    by_cases h : p.1 == k
    · simp [setAssoc, h, lookupAssoc]
    · simpa [setAssoc, h, lookupAssoc] using ih

theorem lookupAssoc_setAssoc_ne {α : Type} (l : List (String × α)) (k k' : String) (v : α)
    (h : k' ≠ k) : lookupAssoc (setAssoc l k v) k' = lookupAssoc l k' := by
  have hkk : (k == k') = false := by
    simpa using fun hk => h hk.symm
  induction l with
  | nil => simp [setAssoc, lookupAssoc, hkk]
  | cons p rest ih =>
    by_cases hp : p.1 == k
    · have hp1 : p.1 = k := by simpa using hp
      have hpk : (p.1 == k') = false := by
        simpa [hp1] using fun hk => h hk.symm
      simp [setAssoc, hp, lookupAssoc, hkk, hpk]
    · by_cases hq : p.1 == k'
      · simp [setAssoc, hp, lookupAssoc, hq]
      · simpa [setAssoc, hp, lookupAssoc, hq] using ih

theorem mem_setAssoc {α : Type} {l : List (String × α)} {k : String} {v : α}
    {p : String × α} (hp : p ∈ setAssoc l k v) : p = (k, v) ∨ p ∈ l := by
  induction l with
  | nil =>
    simp only [setAssoc, List.mem_singleton] at hp
    exact Or.inl hp
  | cons q rest ih =>
    by_cases hq : q.1 == k
    · rcases (by simpa [setAssoc, hq] using hp : p = (k, v) ∨ p ∈ rest) with h | h
      · exact Or.inl h
      · exact Or.inr (List.mem_cons_of_mem _ h)
    · rcases (by simpa [setAssoc, hq] using hp : p = q ∨ p ∈ setAssoc rest k v) with h | h
      · exact Or.inr (h ▸ List.mem_cons_self _ _)
      · rcases ih h with h2 | h2
        · exact Or.inl h2
        · exact Or.inr (List.mem_cons_of_mem _ h2)

theorem mem_updateFirst {p : Question → Bool} {f : Question → Question}
    {l : List Question} {q' : Question} (hq : q' ∈ updateFirst p f l) :
    q' ∈ l ∨ ∃ q ∈ l, p q = true ∧ q' = f q := by
  induction l with
  | nil =>
    simp only [updateFirst, List.not_mem_nil] at hq
  | cons q rest ih =>
    by_cases hpq : p q
    · rcases (by simpa [updateFirst, hpq] using hq : q' = f q ∨ q' ∈ rest) with h | h
      · exact Or.inr ⟨q, List.mem_cons_self _ _, hpq, h⟩
      · exact Or.inl (List.mem_cons_of_mem _ h)
    · rcases (by simpa [updateFirst, hpq] using hq : q' = q ∨ q' ∈ updateFirst p f rest)
        with h | h
      · exact Or.inl (h ▸ List.mem_cons_self _ _)
      · rcases ih h with h2 | h2
        · exact Or.inl (List.mem_cons_of_mem _ h2)
        · rcases h2 with ⟨q0, hq0, hpq0, hq'⟩
          exact Or.inr ⟨q0, List.mem_cons_of_mem _ hq0, hpq0, hq'⟩

theorem get_question_by_id_updateFirst (qs : List Question) (questionId : Nat)
    (f : Question → Question) (hid : ∀ q, (f q).id = q.id) :
    get_question_by_id (updateFirst (fun q => q.id == questionId) f qs) questionId
      = (get_question_by_id qs questionId).map f := by
  induction qs with
  | nil => simp [updateFirst, get_question_by_id]
  | cons q rest ih =>
    by_cases hq : q.id == questionId
    · have hfq : ((f q).id == questionId) = true := by
        simpa [hid q] using hq
      simp [updateFirst, hq, get_question_by_id, hfq]
    · simpa [updateFirst, hq, get_question_by_id] using ih

theorem le_foldl_max (l : List Question) (a : Nat) :
    a ≤ l.foldl (fun b q => Nat.max b q.id) a := by
  induction l generalizing a with
  | nil => exact Nat.le_refl a
  | cons q rest ih =>
    exact Nat.le_trans (Nat.le_max_left a q.id) (ih (Nat.max a q.id))

theorem id_le_foldl_max {l : List Question} {q : Question} (hq : q ∈ l) (a : Nat) :
    q.id ≤ l.foldl (fun b q2 => Nat.max b q2.id) a := by
  induction l generalizing a with
  | nil => cases hq
  | cons q0 rest ih =>
    simp only [List.foldl_cons]
    rcases List.mem_cons.mp hq with h | h
    · subst h
      exact Nat.le_trans (Nat.le_max_right a q.id) (le_foldl_max rest _)
    · exact ih h _

theorem foldl_max_mem (l : List Question) (a : Nat) :
    l.foldl (fun b q => Nat.max b q.id) a = a ∨
      ∃ q ∈ l, l.foldl (fun b q2 => Nat.max b q2.id) a = q.id := by
  induction l generalizing a with
  | nil => exact Or.inl rfl
  | cons q0 rest ih =>
    rcases ih (Nat.max a q0.id) with h | h
    · rcases Nat.le_total a q0.id with hle | hle
      · refine Or.inr ⟨q0, List.mem_cons_self _ _, ?_⟩
        simpa [List.foldl_cons, Nat.max_eq_right hle] using h
      · refine Or.inl ?_
        simpa [List.foldl_cons, Nat.max_eq_left hle] using h
    · rcases h with ⟨q, hq, hfold⟩
      exact Or.inr ⟨q, List.mem_cons_of_mem _ hq, hfold⟩

theorem id_lt_get_next_question_id {qs : List Question} {q : Question} (hq : q ∈ qs) :
    q.id < get_next_question_id qs := by
  have hne : qs.isEmpty = false := by
    cases qs with
    | nil => cases hq
    | cons a l => rfl
  have hle : q.id ≤ maxId qs := id_le_foldl_max hq 0
  simpa [get_next_question_id, hne, maxId] using Nat.lt_succ_of_le hle

theorem get_next_question_id_eq_succ_mem {qs : List Question} (hne : qs ≠ []) :
    ∃ q ∈ qs, get_next_question_id qs = q.id + 1 := by
  have hemp : qs.isEmpty = false := by
    cases qs with
    | nil => exact absurd rfl hne
    | cons a l => rfl
  rcases foldl_max_mem qs 0 with h | h
  · cases qs with
    | nil => exact absurd rfl hne
    | cons q0 rest =>
      have hq0 : q0.id ≤ maxId (q0 :: rest) := id_le_foldl_max (List.mem_cons_self _ _) 0
      have hz : maxId (q0 :: rest) = 0 := h
      have hid0 : q0.id = 0 := Nat.le_antisymm (hz ▸ hq0) (Nat.zero_le _)
      refine ⟨q0, List.mem_cons_self _ _, ?_⟩
      have hnext : get_next_question_id (q0 :: rest) = maxId (q0 :: rest) + 1 := by
        simp [get_next_question_id, hemp]
      rw [hnext, hz, hid0]
  · rcases h with ⟨q, hqmem, hfold⟩
    refine ⟨q, hqmem, ?_⟩
    simp [get_next_question_id, hemp, maxId, hfold]

/-! ### Claims -/

/-- C6: splitting an options-input message takes the message's lines,
trims each line, and discards blank lines while preserving the order of
the remaining lines; in particular `"Paris\nLondon\n\nBerlin"` yields
exactly `["Paris", "London", "Berlin"]`. -/
theorem splitOptions_spec :
    splitOptions "Paris\nLondon\n\nBerlin" = ["Paris", "London", "Berlin"] ∧
    (∀ text : String, "" ∉ splitOptions text) ∧
    (∀ text : String, (splitOptions text).Sublist (strippedLines text)) := by
  refine ⟨by decide, ?_, ?_⟩
  · intro text hmem
    have := List.of_mem_filter hmem
    simp at this
  · intro text
    exact List.filter_sublist _

/-- Instantiation of `splitOptions_spec` at the concrete message of the
claim. -/
theorem splitOptions_spec_witness :
    "" ∉ splitOptions "Paris\nLondon\n\nBerlin" ∧
    (splitOptions "Paris\nLondon\n\nBerlin").Sublist
      (strippedLines "Paris\nLondon\n\nBerlin") :=
  ⟨splitOptions_spec.2.1 "Paris\nLondon\n\nBerlin",
   splitOptions_spec.2.2 "Paris\nLondon\n\nBerlin"⟩

/-- C10: when reading or parsing the questions file fails (an existing
but malformed file), `load_questions` returns the empty list without
touching the file, `get_next_question_id` then returns 1, and the next
create-finalization overwrites the file with exactly the one newly
written record. -/
theorem load_questions_failure_spec :
    load_questions .malformed = [] ∧
    load_questions_file .malformed = .malformed ∧
    get_next_question_id (load_questions .malformed) = 1 ∧
    ∀ (t : String) (opts : List String) (idx : Nat),
      create_commit .malformed t opts idx
        = .valid [{ id := 1, question := t, options := opts, answer := idx,
                    category := "User Created" }] :=
  ⟨rfl, rfl, rfl, fun _ _ _ => rfl⟩

/-- C2 as stated is false at the store {1, 2, 5}: deleting the record
with id 5 makes `get_next_question_id` return 3, not 6 — the maximal id
is recomputed from the current contents, so deleting the maximum lowers
the next id and that id is reused. -/
theorem get_next_question_id_delete_counterexample :
    get_next_question_id sampleStore125 = 6 ∧
    (delete_question_by_id sampleStore125 5).1 = true ∧
    get_next_question_id (delete_question_by_id sampleStore125 5).2 = 3 ∧
    ((3 : Nat) == 6) = false := by
  refine ⟨rfl, rfl, rfl, by decide⟩

/-- C2 (amended): `get_next_question_id` returns 1 on the empty store and
(maximum existing id) + 1 otherwise, recomputed from the given store
contents on every call; with ids {1, 2, 5} it returns 6; after deleting
the non-maximal id 2 it still returns 6, but after deleting the maximal
id 5 it returns 3 (the id of a deleted maximal record is reused). -/
theorem get_next_question_id_spec :
    get_next_question_id [] = 1 ∧
    (∀ qs : List Question, qs ≠ [] →
      (∃ q ∈ qs, get_next_question_id qs = q.id + 1) ∧
      ∀ q ∈ qs, q.id < get_next_question_id qs) ∧
    get_next_question_id sampleStore125 = 6 ∧
    get_next_question_id (delete_question_by_id sampleStore125 2).2 = 6 ∧
    get_next_question_id (delete_question_by_id sampleStore125 5).2 = 3 := by
  refine ⟨rfl, ?_, rfl, rfl, rfl⟩
  intro qs hne
  exact ⟨get_next_question_id_eq_succ_mem hne, fun q hq => id_lt_get_next_question_id hq⟩

/-- Instantiation of `get_next_question_id_spec` at the {1, 2, 5} store. -/
theorem get_next_question_id_spec_witness :
    (∃ q ∈ sampleStore125, get_next_question_id sampleStore125 = q.id + 1) ∧
    ∀ q ∈ sampleStore125, q.id < get_next_question_id sampleStore125 :=
  get_next_question_id_spec.2.1 sampleStore125 (by decide)

/-- C9 as stated is false: `update_user_stats` writes the display name
only when it creates the row, so after a second event carrying the name
"Bob" the stored name is still the first-seen "Alice". -/
theorem user_stats_name_counterexample :
    lookupAssoc (update_user_stats (update_user_stats [] "7" "Alice" true) "7" "Bob" false) "7"
      = some { name := "Alice", correct := 1, total := 2 } ∧
    (("Alice" : String) == "Bob") = false :=
  ⟨rfl, by decide⟩

/-- C9 (amended): the `name` field of a responder's UserStats row is the
FIRST-seen display name: it is set from the event that creates the row
and left unchanged by every later event for that user. -/
theorem user_stats_name_first_seen :
    ∀ (users : UserStore) (userId userName : String) (isCorrect : Bool),
      (lookupAssoc users userId = none →
        ∃ st, lookupAssoc (update_user_stats users userId userName isCorrect) userId = some st ∧
          st.name = userName) ∧
      (∀ st0, lookupAssoc users userId = some st0 →
        ∃ st, lookupAssoc (update_user_stats users userId userName isCorrect) userId = some st ∧
          st.name = st0.name) := by
  intro users userId userName isCorrect
  constructor
  · intro habs
    unfold update_user_stats
    rw [habs]
    exact ⟨_, lookupAssoc_setAssoc_self users userId _, rfl⟩
  · intro st0 hst0
    unfold update_user_stats
    rw [hst0]
    exact ⟨_, lookupAssoc_setAssoc_self users userId _, rfl⟩

/-- Instantiation of `user_stats_name_first_seen`: the row created for a
fresh user carries that event's name, and a later event with another
name leaves it unchanged. -/
theorem user_stats_name_first_seen_witness :
    (∃ st, lookupAssoc (update_user_stats [] "7" "Alice" true) "7" = some st ∧
      st.name = "Alice") ∧
    ∃ st, lookupAssoc
        (update_user_stats (update_user_stats [] "7" "Alice" true) "7" "Bob" false) "7"
        = some st ∧ st.name = ({ name := "Alice", correct := 1, total := 1 } : UserStats).name :=
  ⟨(user_stats_name_first_seen [] "7" "Alice" true).1 rfl,
   (user_stats_name_first_seen (update_user_stats [] "7" "Alice" true) "7" "Bob" false).2
     { name := "Alice", correct := 1, total := 1 } rfl⟩

/-- C4: `delete_question_by_id` returns false and leaves the collection
unchanged when no record with the id exists; when one exists (ids are
unique per the data model, stated as the count hypothesis) it returns
true, the collection shrinks by exactly one record, and a subsequent
`get_question_by_id` for that id returns `None`. -/
theorem delete_question_by_id_spec :
    ∀ (qs : List Question) (questionId : Nat),
      qs.countP (fun q => q.id == questionId) ≤ 1 →
      (get_question_by_id qs questionId = none →
        delete_question_by_id qs questionId = (false, qs)) ∧
      (∀ q, get_question_by_id qs questionId = some q →
        (delete_question_by_id qs questionId).1 = true ∧
        (delete_question_by_id qs questionId).2.length + 1 = qs.length ∧
        get_question_by_id (delete_question_by_id qs questionId).2 questionId = none) := by
  intro qs questionId huniq
  constructor
  · intro habs
    have hall : ∀ q ∈ qs, ¬ ((fun q => q.id == questionId) q = true) :=
      List.find?_eq_none.mp habs
    have hfilter : qs.filter (fun q => !(q.id == questionId)) = qs :=
      List.filter_eq_self.mpr (fun q hq => by simpa using hall q hq)
    unfold delete_question_by_id
    rw [hfilter]
    simp
  · intro q hq
    have hq2 : qs.find? (fun q => q.id == questionId) = some q := hq
    have hmem : q ∈ qs := List.mem_of_find?_eq_some hq2
    have hpq := List.find?_some hq2
    have hpos : 0 < qs.countP (fun q => q.id == questionId) :=
      List.countP_pos_iff.mpr ⟨q, hmem, hpq⟩
    have hcount : qs.countP (fun q => q.id == questionId) = 1 :=
      Nat.le_antisymm huniq hpos
    have hfp : (qs.filter (fun q => q.id == questionId)).length = 1 := by
      rw [← List.countP_eq_length_filter]
      exact hcount
    have hlen : qs.length = 1 + (qs.filter (fun q => !(q.id == questionId))).length := by
      have h := List.length_eq_length_filter_add (l := qs) (fun q => q.id == questionId)
      rw [hfp] at h
      simpa using h
    have hlt : (qs.filter (fun q => !(q.id == questionId))).length < qs.length := by
      omega
    have hdel : delete_question_by_id qs questionId
        = (true, qs.filter (fun q => !(q.id == questionId))) := by
      unfold delete_question_by_id
      rw [if_pos hlt]
    refine ⟨by rw [hdel], by rw [hdel]; dsimp only; omega, ?_⟩
    rw [hdel]
    refine List.find?_eq_none.mpr ?_
    intro x hx
    have := List.of_mem_filter hx
    simpa using this

/-- Instantiation of `delete_question_by_id_spec` at the {1, 2, 5} store:
deleting absent id 7 is a no-op reporting false; deleting id 5 reports
true and shrinks the store by one. -/
theorem delete_question_by_id_spec_witness :
    delete_question_by_id sampleStore125 7 = (false, sampleStore125) ∧
    (delete_question_by_id sampleStore125 5).1 = true ∧
    (delete_question_by_id sampleStore125 5).2.length + 1 = sampleStore125.length ∧
    get_question_by_id (delete_question_by_id sampleStore125 5).2 5 = none :=
  ⟨(delete_question_by_id_spec sampleStore125 7 (by decide)).1 (by decide),
   (delete_question_by_id_spec sampleStore125 5 (by decide)).2 sampleQ5 (by decide)⟩

/-- C3: when the edit-options step replaces a stored question's options
and the old answer index is out of bounds for the new list, the stored
answer is reset to 0; when still in bounds, the answer is unchanged. -/
theorem handle_edit_options_policy :
    ∀ (qs : List Question) (questionId : Nat) (text : String) (q : Question),
      get_question_by_id qs questionId = some q →
      2 ≤ (splitOptions text).length →
      ∃ q2, get_question_by_id (handle_edit_options qs questionId text) questionId
          = some q2 ∧
        q2.options = splitOptions text ∧
        ((splitOptions text).length ≤ q.answer → q2.answer = 0) ∧
        (q.answer < (splitOptions text).length → q2.answer = q.answer) := by
  intro qs questionId text q hget hlen
  have hnotlt : ¬ (splitOptions text).length < 2 := Nat.not_lt.mpr hlen
  have hdef : handle_edit_options qs questionId text =
      updateFirst (fun q2 => q2.id == questionId)
        (fun q2 =>
          { q2 with
            options := splitOptions text
            answer := if (splitOptions text).length ≤ q2.answer then 0 else q2.answer })
        qs := by
    unfold handle_edit_options
    rw [if_neg hnotlt, hget]
  rw [hdef, get_question_by_id_updateFirst qs questionId
      (fun q2 =>
        { q2 with
          options := splitOptions text
          answer := if (splitOptions text).length ≤ q2.answer then 0 else q2.answer })
      (fun q2 => rfl), hget]
  refine ⟨_, rfl, rfl, ?_, ?_⟩
  · intro hle
    show (if (splitOptions text).length ≤ q.answer then 0 else q.answer) = 0
    rw [if_pos hle]
  · intro hlt
    show (if (splitOptions text).length ≤ q.answer then 0 else q.answer) = q.answer
    rw [if_neg (Nat.not_le.mpr hlt)]

/-- Instantiation of `handle_edit_options_policy`: editing the options of
record 2 (answer index 1, three options) down to the two options
"p", "q" keeps the in-bounds answer 1; record 5 (answer index 1) edited
to two options keeps it as well, while the general theorem also yields
the reset branch. -/
theorem handle_edit_options_policy_witness :
    ∃ q2, get_question_by_id (handle_edit_options sampleStore125 2 "p\nq") 2 = some q2 ∧
      q2.options = splitOptions "p\nq" ∧
      ((splitOptions "p\nq").length ≤ sampleQ2.answer → q2.answer = 0) ∧
      (sampleQ2.answer < (splitOptions "p\nq").length → q2.answer = sampleQ2.answer) :=
  handle_edit_options_policy sampleStore125 2 "p\nq" sampleQ2 (by decide) (by decide)

/-- C1: the stored-record invariant `0 ≤ answer < len(options)` (the
lower bound is by the `Nat` type of the index) together with
`len(options) ≥ 2` holds after every mutation path: the seeded store
satisfies it and it is preserved by create/clone finalization
(`get_answer`, whose options passed the ≥ 2 validation and whose index
comes from a button enumerating those options), by poll conversion
(`handle_poll_to_quiz`, a Telegram poll carries ≥ 2 options and the
index comes from a button per option), by `handle_edit_options`
(validation and reset-to-0 policy included), and by
`handle_edit_answer` (whose index comes from a button enumerating the
target's stored options). -/
theorem store_invariant_spec :
    storeInvariant seedQuestions ∧
    ∀ qs : List Question, storeInvariant qs →
      (∀ (t : String) (opts : List String) (idx : Nat),
        2 ≤ opts.length → idx < opts.length →
        storeInvariant (get_answer qs t opts idx)) ∧
      (∀ (t : String) (opts : List String) (idx : Nat),
        2 ≤ opts.length → idx < opts.length →
        storeInvariant (handle_poll_to_quiz qs t opts idx)) ∧
      (∀ (questionId : Nat) (text : String),
        storeInvariant (handle_edit_options qs questionId text)) ∧
      (∀ (questionId idx : Nat),
        (∀ q ∈ qs, q.id = questionId → idx < q.options.length) →
        storeInvariant (handle_edit_answer qs questionId idx)) := by
  refine ⟨by decide, ?_⟩
  intro qs hinv
  refine ⟨?_, ?_, ?_, ?_⟩
  · intro t opts idx h2 hidx q hq
    rcases List.mem_append.mp hq with h | h
    · exact hinv q h
    · rw [List.mem_singleton.mp h]
      exact ⟨hidx, h2⟩
  · intro t opts idx h2 hidx q hq
    rcases List.mem_append.mp hq with h | h
    · exact hinv q h
    · rw [List.mem_singleton.mp h]
      exact ⟨hidx, h2⟩
  · intro questionId text q hq
    by_cases hlen : (splitOptions text).length < 2
    · unfold handle_edit_options at hq
      rw [if_pos hlen] at hq
      exact hinv q hq
    · unfold handle_edit_options at hq
      rw [if_neg hlen] at hq
      cases hget : get_question_by_id qs questionId with
      | none =>
        rw [hget] at hq
        exact hinv q hq
      | some q1 =>
        rw [hget] at hq
        rcases mem_updateFirst hq with h | ⟨q0, hq0, _, hfq⟩
        · exact hinv q h
        · subst hfq
          have h2 : 2 ≤ (splitOptions text).length := Nat.not_lt.mp hlen

          refine ⟨?_, h2⟩
          by_cases hans : (splitOptions text).length ≤ q0.answer
          · show (if (splitOptions text).length ≤ q0.answer then 0 else q0.answer)
              < (splitOptions text).length
            rw [if_pos hans]
            omega
          · show (if (splitOptions text).length ≤ q0.answer then 0 else q0.answer)
              < (splitOptions text).length
            rw [if_neg hans]
            omega
  · intro questionId idx hbound q hq
    unfold handle_edit_answer at hq
    rcases mem_updateFirst hq with h | ⟨q0, hq0, hpq0, hfq⟩
    · exact hinv q h
    · subst hfq
      have hid : q0.id = questionId := by simpa using hpq0
      exact ⟨hbound q0 hq0 hid, (hinv q0 hq0).2⟩

/-- Instantiation of `store_invariant_spec` at the {1, 2, 5} store: a
created record, an options edit and an answer edit all keep the
invariant. -/
theorem store_invariant_spec_witness :
    storeInvariant (get_answer sampleStore125 "Q" ["a", "b"] 1) ∧
    storeInvariant (handle_edit_options sampleStore125 2 "p\nq") ∧
    storeInvariant (handle_edit_answer sampleStore125 2 2) :=
  ⟨(store_invariant_spec.2 sampleStore125 (by decide)).1 "Q" ["a", "b"] 1
      (by decide) (by decide),
   (store_invariant_spec.2 sampleStore125 (by decide)).2.2.1 2 "p\nq",
   (store_invariant_spec.2 sampleStore125 (by decide)).2.2.2 2 2 (by decide)⟩

/-- C5: on an answer-submission event the responder's row is created if
absent and updated so that `total` grows by exactly 1, `correct` grows
by exactly 1 precisely when the chosen index equals the remembered
correct index, and the row invariant `correct ≤ total` is preserved for
every row. -/
theorem handle_poll_answer_spec :
    ∀ (users : UserStore) (userId userName : String) (sel corr : Nat),
      totalOf (handle_poll_answer users userId userName sel corr) userId
          = totalOf users userId + 1 ∧
      correctOf (handle_poll_answer users userId userName sel corr) userId
          = correctOf users userId + (if sel = corr then 1 else 0) ∧
      (statsInvariant users →
        statsInvariant (handle_poll_answer users userId userName sel corr)) := by
  intro users userId userName sel corr
  have hif : ((if (sel == corr) = true then 1 else 0) : Nat)
      = if sel = corr then 1 else 0 := by
    by_cases h : sel = corr <;> simp [h]
  cases hbase : lookupAssoc users userId with
  | none =>
    have hnew : lookupAssoc (handle_poll_answer users userId userName sel corr) userId
        = some { name := userName, correct := 0 + (if (sel == corr) = true then 1 else 0),
                 total := 0 + 1 } := by
      unfold handle_poll_answer update_user_stats
      rw [hbase]
      exact lookupAssoc_setAssoc_self users userId _
    refine ⟨?_, ?_, ?_⟩
    · unfold totalOf
      rw [hnew, hbase]
    · unfold correctOf
      rw [hnew, hbase]
      simp [hif]
    · intro hinv p hp
      unfold handle_poll_answer update_user_stats at hp
      rw [hbase] at hp
      rcases mem_setAssoc hp with h | h
      · rw [h]
        by_cases hc : (sel == corr) = true <;> simp [hc]
      · exact hinv p h
  | some st =>
    have hnew : lookupAssoc (handle_poll_answer users userId userName sel corr) userId
        = some { st with
                 correct := st.correct + (if (sel == corr) = true then 1 else 0)
                 total := st.total + 1 } := by
      unfold handle_poll_answer update_user_stats
      rw [hbase]
      exact lookupAssoc_setAssoc_self users userId _
    have hstmem : ∃ p ∈ users, p.2 = st := by
      unfold lookupAssoc at hbase
      rcases Option.map_eq_some'.mp hbase with ⟨p, hfind, hp2⟩
      exact ⟨p, List.mem_of_find?_eq_some hfind, hp2⟩
    refine ⟨?_, ?_, ?_⟩
    · unfold totalOf
      rw [hnew, hbase]
    · unfold correctOf
      rw [hnew, hbase]
      simp [hif]
    · intro hinv p hp
      unfold handle_poll_answer update_user_stats at hp
      rw [hbase] at hp
      rcases mem_setAssoc hp with h | h
      · rw [h]
        rcases hstmem with ⟨p0, hp0, hp02⟩
        have hle : st.correct ≤ st.total := hp02 ▸ hinv p0 hp0
        by_cases hc : (sel == corr) = true <;> simp [hc] <;> omega
      · exact hinv p h

/-- Instantiation of `handle_poll_answer_spec` on the empty stats store:
a first correct answer creates the row and the invariant holds. -/
theorem handle_poll_answer_spec_witness :
    totalOf (handle_poll_answer [] "7" "Alice" 2 2) "7" = totalOf [] "7" + 1 ∧
    correctOf (handle_poll_answer [] "7" "Alice" 2 2) "7"
        = correctOf [] "7" + (if 2 = 2 then 1 else 0) ∧
    statsInvariant (handle_poll_answer [] "7" "Alice" 2 2) :=
  ⟨(handle_poll_answer_spec [] "7" "Alice" 2 2).1,
   (handle_poll_answer_spec [] "7" "Alice" 2 2).2.1,
   (handle_poll_answer_spec [] "7" "Alice" 2 2).2.2
     (fun p hp => absurd hp (List.not_mem_nil p))⟩

/-- C7 as stated is false: `play` stores the remembered correct index in
per-USER `context.user_data` without any chat key, so after the same
user starts a round in chat 1 (correct index 2) and then in chat 2
(correct index 0), answering chat 1's round with its own designated
correct index 2 is reconciled against chat 2's index 0 and scored
wrong. -/
theorem round_state_chat_counterexample :
    rememberedCorrect (play (play [] 1 "u" 2) 2 "u" 0) "u" = some 0 ∧
    reconcile_is_correct (play (play [] 1 "u" 2) 2 "u" 0) "u" 2 = false ∧
    ((0 : Nat) == 2) = false := by decide

/-- C7 (amended): the in-flight round state is keyed per user, not per
chat: reconciliation always compares against the most recently
dispatched round of the answering user, whatever chat either round was
dispatched to, so later rounds by the same user overwrite the
remembered index while rounds started by different users are
independent. -/
theorem round_state_per_user :
    ∀ (rounds : RoundStore) (c1 c2 : Nat) (u1 u2 : String) (a1 a2 : Nat),
      rememberedCorrect (play rounds c1 u1 a1) u1 = some a1 ∧
      (u1 ≠ u2 →
        rememberedCorrect (play (play rounds c1 u1 a1) c2 u2 a2) u1 = some a1) ∧
      rememberedCorrect (play (play rounds c1 u1 a1) c2 u1 a2) u1 = some a2 := by
  intro rounds c1 c2 u1 u2 a1 a2
  refine ⟨?_, ?_, ?_⟩
  · exact lookupAssoc_setAssoc_self rounds u1 a1
  · intro hne
    unfold rememberedCorrect play
    rw [lookupAssoc_setAssoc_ne _ _ _ _ hne]
    exact lookupAssoc_setAssoc_self rounds u1 a1
  · exact lookupAssoc_setAssoc_self _ u1 a2

/-- Instantiation of `round_state_per_user`: a round started by a
different user leaves this user's remembered index intact. -/
theorem round_state_per_user_witness :
    rememberedCorrect (play (play [] 1 "alice" 2) 2 "bob" 1) "alice" = some 2 :=
  (round_state_per_user [] 1 2 "alice" "bob" 2 1).2.1 (by decide)

/-- Every draft `parse_telegram_quiz_url` produces carries the default
answer index 0. -/
theorem pyroStage_answer_zero :
    ∀ (env : ParseEnv) (d : QuizDraft), pyroStage env = some d → d.answer = 0 := by
  intro env d h
  unfold pyroStage at h
  repeat' split at h
  all_goals first
    | exact Option.noConfusion h
    | (injection h with h2; rw [← h2])

theorem pollStage_answer_zero :
    ∀ (env : ParseEnv) (d : QuizDraft), pollStage env = some d → d.answer = 0 := by
  intro env d h
  unfold pollStage at h
  repeat' split at h
  all_goals first
    | exact Option.noConfusion h
    | (injection h with h2; rw [← h2])

theorem embeddedStage_answer_zero :
    ∀ (env : ParseEnv) (url : String) (d : QuizDraft),
      embeddedStage env url = some d → d.answer = 0 := by
  intro env url d h
  unfold embeddedStage at h
  repeat' split at h
  all_goals first
    | exact Option.noConfusion h
    | (injection h with h2; rw [← h2])

theorem metaStage_answer_zero :
    ∀ (env : ParseEnv) (d : QuizDraft), metaStage env = some d → d.answer = 0 := by
  intro env d h
  unfold metaStage at h
  repeat' split at h
  all_goals first
    | exact Option.noConfusion h
    | (injection h with h2; rw [← h2])

theorem parse_telegram_quiz_url_answer_zero :
    ∀ (env : ParseEnv) (url : String) (d : QuizDraft),
      parse_telegram_quiz_url env url = some d → d.answer = 0 := by
  intro env url d h
  unfold parse_telegram_quiz_url at h
  split at h
  · exact Option.noConfusion h
  · cases hp : pyroStage env with
    | some d0 =>
      rw [hp] at h
      injection h with h2
      rw [← h2]
      exact pyroStage_answer_zero env d0 hp
    | none =>
      rw [hp] at h
      cases hf : env.fetchPage with
      | error e =>
        rw [hf] at h
        exact Option.noConfusion h
      | ok u =>
        rw [hf] at h
        cases hpoll : pollStage env with
        | some d0 =>
          rw [hpoll] at h
          injection h with h2
          rw [← h2]
          exact pollStage_answer_zero env d0 hpoll
        | none =>
          rw [hpoll] at h
          cases hemb : embeddedStage env url with
          | some d0 =>
            rw [hemb] at h
            injection h with h2
            rw [← h2]
            exact embeddedStage_answer_zero env url d0 hemb
          | none =>
            rw [hemb] at h
            exact metaStage_answer_zero env d h

/-- C8: for every environment outcome (including every combination of
internal fetch or parse exceptions, all caught) and every URL, the import
adapter returns either a structured draft whose `answer` is the
default 0, or `None`; it never propagates an exception. -/
theorem parse_telegram_quiz_url_spec :
    ∀ (env : ParseEnv) (url : String),
      parse_telegram_quiz_url env url = none ∨
      ∃ (q : String) (opts : List String),
        parse_telegram_quiz_url env url
          = some { question := q, options := opts, answer := 0 } := by
  intro env url
  cases hview : parse_telegram_quiz_url env url with
  | none => exact Or.inl rfl
  | some d =>
    have h0 := parse_telegram_quiz_url_answer_zero env url d hview
    cases d with
    | mk q opts a =>
      have h1 : a = 0 := h0
      subst h1
      exact Or.inr ⟨q, opts, rfl⟩

end QuizBot
